import Mathlib

/-!
Verification development for the glide banking backend: the Account Ledger
and Funding Engine (Money arithmetic, Luhn card validation, funding-source
resolution, account-number issuance, transaction history) and the signup
password validation.

The ledger core (`accountRouter`) is exercised by the repository's unit and
end-to-end tests but its router file is not part of the source tree given
here, so the ledger, Money, Card Validator, Issuer and Funding Source
Resolver components are modelled from the specification.  The signup
password validation is embedded directly from `src/server/routers/auth.ts`.
-/

namespace Glide

/-- Error taxonomy of the ledger, from the specification §7:
`InvalidAmount`, `InvalidInstrument`, `MalformedInstrument`, `NotFound`,
`AccountClosed`, `IssuerExhausted`, `InternalError`. -/
inductive LedgerError where
  | invalidAmount
  | invalidInstrument
  | malformedInstrument
  | notFound
  | accountClosed
  | issuerExhausted
  | internalError
  deriving DecidableEq, Repr

/-! ## Card Validator (Luhn) -/

/-- Numeric value of a decimal digit character, `none` on a non-digit. -/
def digitVal (c : Char) : Option Nat :=
  if c.isDigit then some (c.toNat - 48) else none

/-- Parse a string into its list of decimal digits; fails if any character
is not a digit. -/
def parseDigits (s : String) : Option (List Nat) :=
  s.data.mapM digitVal

/-- Modelled from the spec: the Luhn transform of the digit at 0-based
position `i` counted from the rightmost digit — every second digit moving
leftward (odd `i`) is doubled, and 9 is subtracted when the doubled digit
exceeds 9. -/
def luhnDigit (i d : Nat) : Nat :=
  if i % 2 = 1 then
    let x := 2 * d
    if x > 9 then x - 9 else x
  else d

/-- Modelled from the spec: the Luhn checksum of a digit list (most
significant digit first): reverse to count positions from the rightmost
digit, apply `luhnDigit` at each position, and sum. -/
def luhnSum (ds : List Nat) : Nat :=
  (ds.reverse.enum.map (fun p => luhnDigit p.1 p.2)).sum

/-- Modelled from the spec §4.2: the Card Validator.  Non-digit characters
or empty input fail with `MalformedInstrument` before the checksum runs;
otherwise the string is valid iff the Luhn checksum is divisible by 10. -/
def luhnCheck (s : String) : Except LedgerError Bool :=
  match parseDigits s with
  | none => .error .malformedInstrument
  | some [] => .error .malformedInstrument
  | some ds => .ok (luhnSum ds % 10 == 0)

/-! ## Signup password validation (from `src/server/routers/auth.ts`) -/

/-- Whether `p` occurs at the start of `s` (character-list version). -/
def startsWithChars : List Char → List Char → Bool
  | [], _ => true
  | _ :: _, [] => false
  | p :: ps, c :: cs => p == c && startsWithChars ps cs

/-- Whether `pat` occurs as a contiguous substring of `s`. -/
def containsSub (pat : List Char) : List Char → Bool
  | [] => startsWithChars pat []
  | c :: cs => startsWithChars pat (c :: cs) || containsSub pat cs

/-- One item of a JavaScript regex pattern as it occurs in the four signup
password regexes: a literal character, the `^` start-of-input anchor, the
`$` end-of-input anchor, or a starred single character (`c*`). -/
inductive RItem where
  | lit (c : Char)
  | assertStart
  | assertEnd
  | star (c : Char)
  deriving DecidableEq, Repr

/-- Match `c*` followed by the continuation `next`: consume zero or more
copies of `c`, handing the remaining input to `next` at every split
point. -/
def matchStarGo (c : Char) (next : Bool → List Char → Bool) :
    Bool → List Char → Bool
  | atStart, [] => next atStart []
  | atStart, d :: ds =>
    next atStart (d :: ds) || (c == d && matchStarGo c next false ds)

/-- Match a pattern against the suffix `ds` of the input.  `atStart`
records whether the current position is the start of the whole input; the
regexes carry no `m` flag, so `^` matches only there and `$` only at the
very end of the input. -/
def matchSeq : List RItem → Bool → List Char → Bool
  | [], _, _ => true
  | .lit _ :: _, _, [] => false
  | .lit c :: rest, _, d :: ds => c == d && matchSeq rest false ds
  | .assertStart :: rest, atStart, ds => atStart && matchSeq rest atStart ds
  | .assertEnd :: rest, atStart, ds => ds.isEmpty && matchSeq rest atStart ds
  | .star c :: rest, atStart, ds => matchStarGo c (matchSeq rest) atStart ds

/-- JavaScript `RegExp.test`: try to match the pattern at every start
position of the input. -/
def regexSearch (items : List RItem) : Bool → List Char → Bool
  | atStart, [] => matchSeq items atStart []
  | atStart, d :: ds =>
    matchSeq items atStart (d :: ds) || regexSearch items false ds

/-- Whether the regex matches somewhere in the string. -/
def regexTest (items : List RItem) (s : String) : Bool :=
  regexSearch items true s.data

/-- The pattern of `/\[A-Z]/`: the bracket is escaped, `-` is literal
outside a class and an unmatched `]` is literal, so the pattern is the five
literal characters of the text `[A-Z]`. -/
def patUpper : List RItem := "[A-Z]".data.map RItem.lit

/-- The pattern of `/\[a-z]/`: five literal characters. -/
def patLower : List RItem := "[a-z]".data.map RItem.lit

/-- The pattern of `/\[0-9]/`: five literal characters. -/
def patDigit : List RItem := "[0-9]".data.map RItem.lit

/-- The pattern of `/\[!@#$%^&*]/`: only the opening bracket is escaped,
so `$` remains the end-of-input anchor, `^` the start-of-input anchor and
`*` a quantifier on the preceding `&`; the items are literal `[`, `!`,
`@`, `#`, then `$`, literal `%`, then `^`, then `&*`, literal `]`. -/
def patSpecial : List RItem :=
  [.lit '[', .lit '!', .lit '@', .lit '#', .assertEnd, .lit '%',
   .assertStart, .star '&', .lit ']']

/-- The zod password schema of `authRouter.signup`
(`src/server/routers/auth.ts` lines 32–36):
`z.string().min(8).regex(/\[A-Z]/).regex(/\[a-z]/).regex(/\[0-9]/)
.regex(/\[!@#$%^&*]/)`, with each regex embedded item by item: the first
three consist of literal characters only (escaped bracket, literal dash,
literal unmatched closing bracket), while the fourth keeps its `$` and `^`
anchors and `*` quantifier active. -/
def passwordAccepted (p : String) : Bool :=
  decide (8 ≤ p.length)
    && regexTest patUpper p
    && regexTest patLower p
    && regexTest patDigit p
    && regexTest patSpecial p

/-! ## Data model (modelled from the spec §3) -/

/-- Account type: one of checking, savings. -/
inductive AccountType where
  | checking
  | savings
  deriving DecidableEq, Repr

/-- Account status: one of active, closed. -/
inductive AccountStatus where
  | active
  | closed
  deriving DecidableEq, Repr

/-- Transaction kind: currently only deposit is in scope. -/
inductive TxKind where
  | deposit
  deriving DecidableEq, Repr

/-- Modelled from the spec: an Account row.  `balanceMinorUnits` is a signed
integer count of currency minor units, mutated only by the ledger. -/
structure Account where
  id : Nat
  ownerId : Nat
  accountNumber : String
  accountType : AccountType
  balanceMinorUnits : Int
  status : AccountStatus
  deriving DecidableEq, Repr

/-- Modelled from the spec: a Transaction row; append-only, never mutated. -/
structure Transaction where
  id : Nat
  accountId : Nat
  amountMinorUnits : Int
  kind : TxKind
  description : String
  createdAt : Nat
  deriving DecidableEq, Repr

/-- Funding source type discriminant. -/
inductive SourceType where
  | card
  | bank
  deriving DecidableEq, Repr

/-- Modelled from the spec: the transient funding source value as it arrives
from the caller: a type discriminant, an instrument account number, and an
optional routing number whose relevance depends on the type. -/
structure FundingSource where
  type : SourceType
  accountNumber : String
  routingNumber : Option String
  deriving DecidableEq, Repr

/-- Modelled from the spec §4.4: the Funding Source Resolver.  A card-type
source runs the Card Validator on its account number and rejects an invalid
checksum with `InvalidInstrument`; a bank-type source requires a non-empty
routing number and rejects a missing or empty one with `InvalidInstrument`.
The routing number of a card-type source is ignored, not rejected. -/
def resolveSource (src : FundingSource) : Except LedgerError Unit :=
  match src.type with
  | .card =>
    match luhnCheck src.accountNumber with
    | .error e => .error e
    | .ok true => .ok ()
    | .ok false => .error .invalidInstrument
  | .bank =>
    match src.routingNumber with
    | none => .error .invalidInstrument
    | some r => if r = "" then .error .invalidInstrument else .ok ()

/-! ## Account Number Issuer (modelled from the spec §4.3) -/

/-- The issuance retry bound: up to 10 attempts before `IssuerExhausted`. -/
def maxIssueAttempts : Nat := 10

/-- Modelled from the spec: the issuance loop.  `used` is the persistence
check for a number already in use, `cands` the stream of generated
candidates, `attempt` the explicit attempt counter, `remaining` the attempts
still allowed.  On collision it regenerates; when the budget is exhausted it
fails with `IssuerExhausted`.  On success it returns the issued number and
the number of attempts consumed. -/
def issueGo (used : String → Bool) (cands : Nat → String) :
    Nat → Nat → Except LedgerError (String × Nat)
  | _, 0 => .error .issuerExhausted
  | attempt, remaining + 1 =>
    if used (cands attempt) then issueGo used cands (attempt + 1) remaining
    else .ok (cands attempt, attempt + 1)

/-- Modelled from the spec: issue a fresh account number, with at most
`maxIssueAttempts` attempts. -/
def issueNumber (used : String → Bool) (cands : Nat → String) :
    Except LedgerError (String × Nat) :=
  issueGo used cands 0 maxIssueAttempts

/-! ## Ledger state and operations (modelled from the spec §4.4) -/

/-- Modelled from the spec: the ledger's persistent state — the account
rows, the append-only transaction rows, and the next fresh identifiers
(transaction ids are monotonically assigned). -/
structure LedgerState where
  accounts : List Account
  transactions : List Transaction
  nextAccountId : Nat
  nextTransactionId : Nat
  deriving Repr

/-- The empty initial ledger state. -/
def initialState : LedgerState := ⟨[], [], 0, 0⟩

/-- Point read of an account row by id. -/
def findAccount (st : LedgerState) (accountId : Nat) : Option Account :=
  st.accounts.find? (fun a => a.id == accountId)

/-- The balance of an account, when it exists. -/
def balanceOf (st : LedgerState) (accountId : Nat) : Option Int :=
  (findAccount st accountId).map (·.balanceMinorUnits)

/-- Exact sum of the amounts of all transactions recorded for an account. -/
def txSum (txs : List Transaction) (accountId : Nat) : Int :=
  ((txs.filter (fun t => t.accountId == accountId)).map
    (·.amountMinorUnits)).sum

/-- Modelled from the spec §4.4: `createAccount`.  Invokes the Issuer for a
fresh account number against the numbers already in use, then persists a new
account with zero balance and active status. -/
def createAccount (st : LedgerState) (ownerId : Nat) (accType : AccountType)
    (cands : Nat → String) : Except LedgerError (LedgerState × Account) :=
  match issueNumber (fun n => st.accounts.any (fun a => a.accountNumber == n))
      cands with
  | .error e => .error e
  | .ok (num, _) =>
    let acc : Account :=
      ⟨st.nextAccountId, ownerId, num, accType, 0, .active⟩
    .ok ({ st with
            accounts := st.accounts ++ [acc],
            nextAccountId := st.nextAccountId + 1 }, acc)

/-- Modelled from the spec §4.1: the integer Money addition applied to the
target account row (all ledger arithmetic is integer arithmetic; other
accounts are untouched). -/
def updateBalance (accountId : Nat) (amount : Int) (a : Account) : Account :=
  if a.id == accountId then
    { a with balanceMinorUnits := a.balanceMinorUnits + amount }
  else a

/-- Modelled from the spec §4.4: `fundAccount`.  Amounts are in integer
minor units (the decimal boundary conversion happens once, before the
ledger, and all ledger arithmetic is integer arithmetic).  Validation order:
the Money check rejects `amount ≤ 0` with `InvalidAmount` before any
persistence access, then the funding source is resolved, then the account is
loaded (`NotFound` when absent, `AccountClosed` when not active).  On
success the balance update and the transaction append happen together, as a
unit, and the created transaction is returned. -/
def fundAccount (st : LedgerState) (accountId : Nat) (amount : Int)
    (src : FundingSource) (desc : String) (now : Nat) :
    Except LedgerError (LedgerState × Transaction) :=
  if amount ≤ 0 then .error .invalidAmount
  else
    match resolveSource src with
    | .error e => .error e
    | .ok () =>
      match findAccount st accountId with
      | none => .error .notFound
      | some acc =>
        if acc.status = .active then
          let tx : Transaction :=
            ⟨st.nextTransactionId, accountId, amount, .deposit, desc, now⟩
          .ok ({ st with
                  accounts := st.accounts.map (updateBalance accountId amount),
                  transactions := st.transactions ++ [tx],
                  nextTransactionId := st.nextTransactionId + 1 }, tx)
        else .error .accountClosed

/-- Transaction ordering used by `getTransactions`: `a` may come before `b`
when `a` is newer by `createdAt`, ties broken by larger id (the most
recently inserted of equal timestamp) first. -/
def txBefore (a b : Transaction) : Bool :=
  b.createdAt < a.createdAt || (a.createdAt == b.createdAt && b.id ≤ a.id)

/-- Modelled from the spec §4.4: `getTransactions` — the transactions of the
account, ordered newest-first by `createdAt`, ties broken so the most
recently inserted (larger id) appears first.  Read-only. -/
def getTransactions (st : LedgerState) (accountId : Nat) : List Transaction :=
  (st.transactions.filter (fun t => t.accountId == accountId)).mergeSort
    txBefore

/-! ## Operation sequences and reachable states -/

/-- A caller-visible ledger operation. -/
inductive Op where
  | create (ownerId : Nat) (accType : AccountType) (cands : Nat → String)
  | fund (accountId : Nat) (amount : Int) (src : FundingSource)
      (desc : String) (now : Nat)
  | query (accountId : Nat)

/-- Modelled from the spec: applying one operation to the state.  A failed
operation has no effect at all (all-or-nothing: validation errors are
detected before any persistence write, and a partial failure inside
`fundAccount` is treated as failed as a unit); `getTransactions` is
read-only. -/
def applyOp (st : LedgerState) : Op → LedgerState
  | .create ownerId accType cands =>
    match createAccount st ownerId accType cands with
    | .ok (st', _) => st'
    | .error _ => st
  | .fund accountId amount src desc now =>
    match fundAccount st accountId amount src desc now with
    | .ok (st', _) => st'
    | .error _ => st
  | .query _ => st

/-- The state reached by running a sequence of operations from the empty
initial state. -/
def runOps (ops : List Op) : LedgerState :=
  ops.foldl applyOp initialState

/-! ## Theorems -/

/-- C5: for every account, every funding source, and every amount ≤ 0
(including exactly 0 and negative values), `fundAccount` fails with
`InvalidAmount`, and the rejection happens before any persistence access:
it is independent of the stored state (the account need not even exist) and
the state is left unmodified. -/
theorem fundAccount_nonpositive_rejected (st : LedgerState) (accountId : Nat)
    (amount : Int) (src : FundingSource) (desc : String) (now : Nat)
    (h : amount ≤ 0) :
    fundAccount st accountId amount src desc now = .error .invalidAmount ∧
    applyOp st (.fund accountId amount src desc now) = st := by
  have hf : fundAccount st accountId amount src desc now =
      .error .invalidAmount := by
    unfold fundAccount
    simp [h]
  refine ⟨hf, ?_⟩
  simp only [applyOp]
  rw [hf]

/-- Witness for C5: funding 0 and funding -5 are both rejected with
`InvalidAmount` and leave the state unchanged. -/
theorem fundAccount_nonpositive_rejected_witness :
    (fundAccount initialState 1 0 ⟨.card, "4242424242424242", none⟩ "d" 0 =
        .error .invalidAmount ∧
      applyOp initialState (.fund 1 0 ⟨.card, "4242424242424242", none⟩ "d" 0) =
        initialState) ∧
    (fundAccount initialState 1 (-5) ⟨.bank, "999", some "111000025"⟩ "d" 0 =
        .error .invalidAmount ∧
      applyOp initialState
          (.fund 1 (-5) ⟨.bank, "999", some "111000025"⟩ "d" 0) =
        initialState) :=
  ⟨fundAccount_nonpositive_rejected _ _ _ _ _ _ (by decide),
   fundAccount_nonpositive_rejected _ _ _ _ _ _ (by decide)⟩

/-- C4: for every digit string the Card Validator declares validity exactly
when the Luhn checksum (double every second digit from the rightmost,
subtract 9 from doubled digits exceeding 9, sum) is divisible by 10; the
concrete card number 4242424242424242 is valid and 4111111111111112 is
invalid. -/
theorem luhnCheck_valid_iff (s : String) (ds : List Nat)
    (hp : parseDigits s = some ds) (hne : ds ≠ []) :
    (luhnCheck s = .ok true ↔ luhnSum ds % 10 = 0) ∧
    luhnCheck "4242424242424242" = .ok true ∧
    luhnCheck "4111111111111112" = .ok false := by
  refine ⟨?_, rfl, rfl⟩
  cases ds with
  | nil => exact absurd rfl hne
  | cons d tl =>
    unfold luhnCheck
    rw [hp]
    simp [beq_iff_eq]

/-- Witness for C4 at the two concrete card numbers of the test suite. -/
theorem luhnCheck_valid_iff_witness :
    (luhnCheck "4242424242424242" = .ok true ↔
      luhnSum [4, 2, 4, 2, 4, 2, 4, 2, 4, 2, 4, 2, 4, 2, 4, 2] % 10 = 0) ∧
    luhnCheck "4242424242424242" = .ok true ∧
    luhnCheck "4111111111111112" = .ok false :=
  luhnCheck_valid_iff "4242424242424242"
    [4, 2, 4, 2, 4, 2, 4, 2, 4, 2, 4, 2, 4, 2, 4, 2] rfl (by decide)

/-- C8, auxiliary: if every candidate inside the remaining attempt window
collides, the issuance loop fails with `IssuerExhausted`. -/
theorem issueGo_all_collide (used : String → Bool) (cands : Nat → String) :
    ∀ remaining attempt,
      (∀ i, attempt ≤ i → i < attempt + remaining → used (cands i) = true) →
      issueGo used cands attempt remaining = .error .issuerExhausted := by
  intro remaining
  induction remaining with
  | zero => intro attempt _; rfl
  | succ n ih =>
    intro attempt h
    unfold issueGo
    rw [h attempt le_rfl (by omega)]
    simp only [if_true]
    exact ih (attempt + 1) (fun i h1 h2 => h i (by omega) (by omega))

/-- C8, auxiliary: a successful issuance consumes at most the allowed
attempts and returns a number that is not in use. -/
theorem issueGo_ok_bound (used : String → Bool) (cands : Nat → String) :
    ∀ remaining attempt num k,
      issueGo used cands attempt remaining = .ok (num, k) →
      k ≤ attempt + remaining ∧ used num = false := by
  intro remaining
  induction remaining with
  | zero => intro attempt num k h; exact absurd h (by simp [issueGo])
  | succ n ih =>
    intro attempt num k h
    unfold issueGo at h
    by_cases hc : used (cands attempt) = true
    · rw [hc] at h
      simp only [if_true] at h
      obtain ⟨h1, h2⟩ := ih (attempt + 1) num k h
      exact ⟨by omega, h2⟩
    · rw [Bool.not_eq_true] at hc
      rw [hc] at h
      simp only [Bool.false_eq_true, if_false, Except.ok.injEq,
        Prod.mk.injEq] at h
      obtain ⟨h1, h2⟩ := h
      subst h1; subst h2
      exact ⟨by omega, hc⟩

/-- C8: the Account Number Issuer's regenerate-on-collision loop always
terminates: for every collision outcome it performs at most
`maxIssueAttempts` (10) attempts, tracked by an explicit attempt counter,
and if every attempt collides it fails with the terminal error
`IssuerExhausted`; a success returns a number not in use. -/
theorem issuer_bounded_retry (used : String → Bool) (cands : Nat → String) :
    ((∀ i, i < maxIssueAttempts → used (cands i) = true) →
      issueNumber used cands = .error .issuerExhausted) ∧
    (∀ num k, issueNumber used cands = .ok (num, k) →
      k ≤ maxIssueAttempts ∧ used num = false) := by
  constructor
  · intro h
    exact issueGo_all_collide used cands maxIssueAttempts 0
      (fun i h1 h2 => h i (by omega))
  · intro num k h
    have hb := issueGo_ok_bound used cands maxIssueAttempts 0 num k h
    simpa using hb

/-- Witness for C8: a persistence layer on which every candidate collides
makes issuance fail with `IssuerExhausted`. -/
theorem issuer_bounded_retry_witness :
    issueNumber (fun _ => true) (fun _ => "12345678") =
      .error .issuerExhausted :=
  (issuer_bounded_retry (fun _ => true) (fun _ => "12345678")).1
    (fun _ _ => rfl)

/-- A pattern of literal characters matches a suffix exactly when the
characters are a prefix of that suffix. -/
theorem matchSeq_lits (cs : List Char) :
    ∀ (atStart : Bool) (ds : List Char),
      matchSeq (cs.map RItem.lit) atStart ds = startsWithChars cs ds := by
  induction cs with
  | nil => intro atStart ds; rfl
  | cons c cs ih =>
    intro atStart ds
    cases ds with
    | nil => rfl
    | cons d t => simp [matchSeq, startsWithChars, ih]

/-- Searching for a pattern of literal characters is exactly substring
containment of those characters. -/
theorem regexSearch_lits (cs : List Char) :
    ∀ (ds : List Char) (atStart : Bool),
      regexSearch (cs.map RItem.lit) atStart ds = containsSub cs ds := by
  intro ds
  induction ds with
  | nil =>
    intro atStart
    simp [regexSearch, containsSub, matchSeq_lits]
  | cons d t ih =>
    intro atStart
    simp [regexSearch, containsSub, matchSeq_lits, ih]

/-- The fourth password pattern matches at no position of any input: its
`$` anchor demands the end of the input while a mandatory `%` must still
follow. -/
theorem matchSeq_patSpecial (atStart : Bool) (ds : List Char) :
    matchSeq patSpecial atStart ds = false := by
  have htail : ∀ (b : Bool) (t : List Char),
      matchSeq [.assertEnd, .lit '%', .assertStart, .star '&', .lit ']']
        b t = false := by
    intro b t
    cases t with
    | nil => rfl
    | cons a as => simp [matchSeq]
  match ds with
  | [] => rfl
  | [a] => simp [patSpecial, matchSeq]
  | [a, b] => simp [patSpecial, matchSeq]
  | [a, b, c] => simp [patSpecial, matchSeq]
  | a :: b :: c :: d :: t =>
    simp [patSpecial, matchSeq, htail]
    intro _ _ _ _ ht
    subst ht
    rfl

/-- Searching with the fourth password pattern fails on every input. -/
theorem regexSearch_patSpecial (ds : List Char) :
    ∀ atStart : Bool, regexSearch patSpecial atStart ds = false := by
  induction ds with
  | nil =>
    intro atStart
    simp [regexSearch, matchSeq_patSpecial]
  | cons d t ih =>
    intro atStart
    simp [regexSearch, matchSeq_patSpecial, ih]

/-- Counterexample to the claim that the signup password schema accepts a
password when it is long enough and contains the four literal bracketed
substrings: the concrete 29-character password below contains all four of
them, yet `passwordAccepted` rejects it, because the fourth zod regex
`/\[!@#$%^&*]/` keeps `$` as an anchor that must be followed by a
mandatory `%`, so it matches no string at all. -/
theorem signup_password_literal_brackets_cex :
    8 ≤ ("Aa0w[A-Z][a-z][0-9][!@#$%^&*]" : String).length ∧
    containsSub "[A-Z]".data "Aa0w[A-Z][a-z][0-9][!@#$%^&*]".data = true ∧
    containsSub "[a-z]".data "Aa0w[A-Z][a-z][0-9][!@#$%^&*]".data = true ∧
    containsSub "[0-9]".data "Aa0w[A-Z][a-z][0-9][!@#$%^&*]".data = true ∧
    containsSub "[!@#$%^&*]".data
      "Aa0w[A-Z][a-z][0-9][!@#$%^&*]".data = true ∧
    passwordAccepted "Aa0w[A-Z][a-z][0-9][!@#$%^&*]" = false :=
  ⟨by decide, rfl, rfl, rfl, rfl, rfl⟩

/-- C10 (amended): in the signup password schema the first three regexes
are literal-substring tests for `[A-Z]`, `[a-z]` and `[0-9]` (their
brackets are escaped and the remaining characters are literals), but the
fourth regex `/\[!@#$%^&*]/` escapes only its bracket, leaving `$` and `^`
anchors and `*` a quantifier, and matches no string; consequently the
schema accepts no password at all — in particular `Password123!` is
rejected. -/
theorem signup_password_literal_brackets :
    (∀ p : String,
      regexTest patUpper p = containsSub "[A-Z]".data p.data ∧
      regexTest patLower p = containsSub "[a-z]".data p.data ∧
      regexTest patDigit p = containsSub "[0-9]".data p.data) ∧
    (∀ p : String, regexTest patSpecial p = false) ∧
    (∀ p : String, passwordAccepted p = false) ∧
    passwordAccepted "Password123!" = false := by
  have hspec : ∀ p : String, regexTest patSpecial p = false := by
    intro p
    exact regexSearch_patSpecial p.data true
  refine ⟨?_, hspec, ?_, rfl⟩
  · intro p
    exact ⟨regexSearch_lits _ p.data true, regexSearch_lits _ p.data true,
      regexSearch_lits _ p.data true⟩
  · intro p
    unfold passwordAccepted
    rw [hspec p]
    simp

/-- C6: with a valid positive amount, a bank-type funding source whose
routing number is missing or empty makes `fundAccount` fail with
`InvalidInstrument`, while a card-type funding source with no routing
number and a Luhn-valid card number succeeds on an existing active
account. -/
theorem routing_number_optionality (st : LedgerState) (accountId : Nat)
    (amount : Int) (desc : String) (now : Nat) (hpos : 0 < amount) :
    (∀ src : FundingSource, src.type = .bank →
        (src.routingNumber = none ∨ src.routingNumber = some "") →
        fundAccount st accountId amount src desc now =
          .error .invalidInstrument) ∧
    (∀ cardNum : String, luhnCheck cardNum = .ok true →
        ∀ acc, findAccount st accountId = some acc → acc.status = .active →
        ∃ st' tx, fundAccount st accountId amount
            ⟨.card, cardNum, none⟩ desc now = .ok (st', tx)) := by
  have hn : ¬ amount ≤ 0 := by omega
  constructor
  · intro src htype hrout
    have hres : resolveSource src = .error .invalidInstrument := by
      unfold resolveSource
      rw [htype]
      rcases hrout with h | h
      · rw [h]
      · rw [h]
        simp
    unfold fundAccount
    rw [if_neg hn, hres]
  · intro cardNum hluhn acc hfind hact
    have hres : resolveSource ⟨.card, cardNum, none⟩ = .ok () := by
      unfold resolveSource
      rw [hluhn]
    refine ⟨{ st with
        accounts := st.accounts.map (updateBalance accountId amount),
        transactions := st.transactions ++
          [⟨st.nextTransactionId, accountId, amount, .deposit, desc, now⟩],
        nextTransactionId := st.nextTransactionId + 1 },
      ⟨st.nextTransactionId, accountId, amount, .deposit, desc, now⟩, ?_⟩
    unfold fundAccount
    rw [if_neg hn, hres, hfind]
    simp [hact]

/-- A concrete checking account used by witnesses. -/
def wAccount : Account := ⟨1, 7, "12345678", .checking, 0, .active⟩

/-- A concrete one-account ledger state used by witnesses. -/
def wState : LedgerState := ⟨[wAccount], [], 2, 0⟩

/-- Witness for C6: funding with a bank source carrying an empty routing
number fails with `InvalidInstrument`; funding with a card source carrying
no routing number and a Luhn-valid number succeeds. -/
theorem routing_number_optionality_witness :
    fundAccount wState 1 10 ⟨.bank, "999", some ""⟩ "d" 0 =
      .error .invalidInstrument ∧
    (fundAccount wState 1 10
        ⟨.card, "4242424242424242", none⟩ "d" 0).toOption.isSome = true := by
  have h := routing_number_optionality wState 1 10 "d" 0 (by decide)
  refine ⟨h.1 ⟨.bank, "999", some ""⟩ rfl (Or.inr rfl), ?_⟩
  obtain ⟨st', tx, hok⟩ := h.2 "4242424242424242" rfl wAccount rfl rfl
  rw [hok]
  rfl

/-- Iterated funding: the state after `N` identical `fundAccount` deposits
applied through `applyOp`. -/
def fundN (accountId : Nat) (amount : Int) (src : FundingSource)
    (desc : String) (now : Nat) (st : LedgerState) : Nat → LedgerState
  | 0 => st
  | n + 1 => applyOp (fundN accountId amount src desc now st n)
      (.fund accountId amount src desc now)

/-- Success shape of `fundAccount`: with a positive amount, a resolved
source and an existing active account, the balance update and the
transaction append happen together. -/
theorem fundAccount_ok_eq (st : LedgerState) (accountId : Nat) (amount : Int)
    (src : FundingSource) (desc : String) (now : Nat) (acc : Account)
    (hpos : 0 < amount) (hsrc : resolveSource src = .ok ())
    (hfind : findAccount st accountId = some acc)
    (hact : acc.status = .active) :
    fundAccount st accountId amount src desc now =
      .ok ({ st with
          accounts := st.accounts.map (updateBalance accountId amount),
          transactions := st.transactions ++
            [⟨st.nextTransactionId, accountId, amount, .deposit, desc, now⟩],
          nextTransactionId := st.nextTransactionId + 1 },
        ⟨st.nextTransactionId, accountId, amount, .deposit, desc, now⟩) := by
  unfold fundAccount
  rw [if_neg (by omega), hsrc, hfind]
  simp [hact]

/-- Updating the balance of the target account is found back by a point
read: the other rows are untouched and the target row carries the integer
sum. -/
theorem find?_map_updateBalance (st : LedgerState) (accountId : Nat)
    (amount : Int) (acc : Account)
    (hfind : findAccount st accountId = some acc) :
    (st.accounts.map (updateBalance accountId amount)).find?
        (fun a => a.id == accountId) =
      some { acc with
        balanceMinorUnits := acc.balanceMinorUnits + amount } := by
  have hid : ∀ a : Account, (updateBalance accountId amount a).id = a.id := by
    intro a
    unfold updateBalance
    split <;> rfl
  unfold findAccount at hfind
  have hmem : (acc.id == accountId) = true := by
    simpa using List.find?_some hfind
  rw [List.find?_map]
  have hcong : ((fun a : Account => a.id == accountId) ∘
      updateBalance accountId amount) =
      (fun a : Account => a.id == accountId) := by
    funext a
    simp [Function.comp_apply, hid a]
  rw [hcong, hfind]
  simp [Option.map, updateBalance, hmem]

/-- After `N` identical successful deposits the target account row holds
its original balance plus `N` times the amount, and is otherwise
unchanged. -/
theorem fundN_find (accountId : Nat) (amount : Int) (src : FundingSource)
    (desc : String) (now : Nat) (st : LedgerState) (acc : Account) (N : Nat)
    (hpos : 0 < amount) (hsrc : resolveSource src = .ok ())
    (hfind : findAccount st accountId = some acc)
    (hact : acc.status = .active) :
    findAccount (fundN accountId amount src desc now st N) accountId =
      some { acc with
        balanceMinorUnits := acc.balanceMinorUnits + (N : Int) * amount } := by
  induction N with
  | zero => simpa using hfind
  | succ n ih =>
    have hact' : ({ acc with balanceMinorUnits :=
        acc.balanceMinorUnits + (n : Int) * amount } : Account).status =
        .active := hact
    have hok := fundAccount_ok_eq (fundN accountId amount src desc now st n)
      accountId amount src desc now _ hpos hsrc ih hact'
    show findAccount (applyOp (fundN accountId amount src desc now st n)
      (.fund accountId amount src desc now)) accountId = _
    simp only [applyOp]
    rw [hok]
    show ((fundN accountId amount src desc now st n).accounts.map
        (updateBalance accountId amount)).find?
        (fun a => a.id == accountId) = _
    rw [find?_map_updateBalance _ accountId amount _ ih]
    simp only [Option.some.injEq, Account.mk.injEq, true_and, and_true]
    push_cast
    ring

/-- C1: for every account, every positive minor-unit amount `v` and every
count `N`, performing `N` `fundAccount` deposits of `v` on a zero-balance
active account and reading its balance yields exactly `N * v` minor units —
the model's arithmetic is integer-only throughout, with no floating-point
representation at any intermediate step. -/
theorem exact_sum_property (st : LedgerState) (accountId : Nat) (amount : Int)
    (src : FundingSource) (desc : String) (now : Nat) (N : Nat)
    (acc : Account) (hpos : 0 < amount) (hsrc : resolveSource src = .ok ())
    (hfind : findAccount st accountId = some acc)
    (hact : acc.status = .active) (hzero : acc.balanceMinorUnits = 0) :
    balanceOf (fundN accountId amount src desc now st N) accountId =
      some ((N : Int) * amount) := by
  have h := fundN_find accountId amount src desc now st acc N hpos hsrc
    hfind hact
  simp only [balanceOf]
  rw [h]
  simp [hzero]

/-- Witness for C1: 100 deposits of 1 cent on a fresh zero-balance account
yield a balance of exactly 100 cents. -/
theorem exact_sum_property_witness :
    balanceOf
      (fundN 1 1 ⟨.card, "4242424242424242", none⟩ "d" 0 wState 100) 1 =
      some 100 := by
  have h := exact_sum_property wState 1 1 ⟨.card, "4242424242424242", none⟩
    "d" 0 100 wAccount (by decide) rfl rfl rfl rfl
  simpa using h

/-! ## Ledger invariants -/

/-- The balance update keeps every account's id. -/
theorem updateBalance_id (accountId : Nat) (amount : Int) (a : Account) :
    (updateBalance accountId amount a).id = a.id := by
  unfold updateBalance
  split <;> rfl

/-- The balance update keeps every account's number. -/
theorem updateBalance_accountNumber (accountId : Nat) (amount : Int)
    (a : Account) :
    (updateBalance accountId amount a).accountNumber = a.accountNumber := by
  unfold updateBalance
  split <;> rfl

/-- Appending one transaction adds its amount to the sum of exactly its
account and leaves every other account's sum unchanged. -/
theorem txSum_append (txs : List Transaction) (tx : Transaction) (aid : Nat) :
    txSum (txs ++ [tx]) aid =
      txSum txs aid +
        (if tx.accountId == aid then tx.amountMinorUnits else 0) := by
  unfold txSum
  rw [List.filter_append]
  by_cases h : (tx.accountId == aid) = true
  · simp [h]
  · simp [h]

/-- An account referenced by no transaction has transaction sum zero. -/
theorem txSum_eq_zero (txs : List Transaction) (aid : Nat)
    (h : ∀ t ∈ txs, t.accountId ≠ aid) : txSum txs aid = 0 := by
  unfold txSum
  have hnil : txs.filter (fun t => t.accountId == aid) = [] := by
    rw [List.filter_eq_nil_iff]
    intro t ht
    simpa using h t ht
  rw [hnil]
  rfl

/-- The ledger's state invariant: identifiers are bounded by the fresh
counters and pairwise distinct, account numbers are pairwise distinct,
every transaction references an existing account, and each account's
balance equals the exact sum of its transactions. -/
structure WellFormed (st : LedgerState) : Prop where
  acc_id_lt : ∀ a ∈ st.accounts, a.id < st.nextAccountId
  tx_id_lt : ∀ t ∈ st.transactions, t.id < st.nextTransactionId
  acc_ids_distinct : st.accounts.Pairwise (fun a b => a.id ≠ b.id)
  acc_nums_distinct :
    st.accounts.Pairwise (fun a b => a.accountNumber ≠ b.accountNumber)
  tx_has_account :
    ∀ t ∈ st.transactions, ∃ a ∈ st.accounts, a.id = t.accountId
  balance_eq :
    ∀ a ∈ st.accounts, a.balanceMinorUnits = txSum st.transactions a.id

/-- The empty initial state is well formed. -/
theorem wf_initial : WellFormed initialState := by
  constructor <;> simp [initialState]

/-- Appending a fresh zero-balance active account whose number collides
with no existing one preserves the invariant. -/
theorem wf_extend (st : LedgerState) (hw : WellFormed st) (ownerId : Nat)
    (accType : AccountType) (num : String)
    (hnum : ∀ a ∈ st.accounts, a.accountNumber ≠ num) :
    WellFormed { st with
      accounts := st.accounts ++
        [⟨st.nextAccountId, ownerId, num, accType, 0, .active⟩],
      nextAccountId := st.nextAccountId + 1 } := by
  refine ⟨?_, ?_, ?_, ?_, ?_, ?_⟩
  · show ∀ a ∈ st.accounts ++
        [⟨st.nextAccountId, ownerId, num, accType, 0, .active⟩],
      a.id < st.nextAccountId + 1
    intro a ha
    rcases List.mem_append.1 ha with hold | hnew
    · have := hw.acc_id_lt a hold
      omega
    · rw [List.mem_singleton] at hnew
      subst hnew
      show st.nextAccountId < st.nextAccountId + 1
      omega
  · show ∀ t ∈ st.transactions, t.id < st.nextTransactionId
    exact hw.tx_id_lt
  · show (st.accounts ++
        [(⟨st.nextAccountId, ownerId, num, accType, 0, .active⟩ :
          Account)]).Pairwise (fun a b => a.id ≠ b.id)
    rw [List.pairwise_append]
    refine ⟨hw.acc_ids_distinct, List.pairwise_singleton _ _, ?_⟩
    intro a ha b hb
    rw [List.mem_singleton] at hb
    subst hb
    have := hw.acc_id_lt a ha
    show a.id ≠ st.nextAccountId
    omega
  · show (st.accounts ++
        [(⟨st.nextAccountId, ownerId, num, accType, 0, .active⟩ :
          Account)]).Pairwise (fun a b => a.accountNumber ≠ b.accountNumber)
    rw [List.pairwise_append]
    refine ⟨hw.acc_nums_distinct, List.pairwise_singleton _ _, ?_⟩
    intro a ha b hb
    rw [List.mem_singleton] at hb
    subst hb
    exact hnum a ha
  · show ∀ t ∈ st.transactions, ∃ a ∈ st.accounts ++
        [⟨st.nextAccountId, ownerId, num, accType, 0, .active⟩],
      a.id = t.accountId
    intro t ht
    obtain ⟨a, ha, haid⟩ := hw.tx_has_account t ht
    exact ⟨a, List.mem_append_left _ ha, haid⟩
  · show ∀ a ∈ st.accounts ++
        [⟨st.nextAccountId, ownerId, num, accType, 0, .active⟩],
      a.balanceMinorUnits = txSum st.transactions a.id
    intro a ha
    rcases List.mem_append.1 ha with hold | hnew
    · exact hw.balance_eq a hold
    · rw [List.mem_singleton] at hnew
      subst hnew
      show (0 : Int) = txSum st.transactions st.nextAccountId
      symm
      apply txSum_eq_zero
      intro t ht
      obtain ⟨b, hb, hbid⟩ := hw.tx_has_account t ht
      have := hw.acc_id_lt b hb
      omega

/-- Updating the target account's balance and appending the matching
transaction together preserve the invariant. -/
theorem wf_fund_extend (st : LedgerState) (hw : WellFormed st)
    (accountId : Nat) (amount : Int) (desc : String) (now : Nat)
    (acc : Account) (hfind : findAccount st accountId = some acc) :
    WellFormed { st with
      accounts := st.accounts.map (updateBalance accountId amount),
      transactions := st.transactions ++
        [⟨st.nextTransactionId, accountId, amount, .deposit, desc, now⟩],
      nextTransactionId := st.nextTransactionId + 1 } := by
  have haccmem : acc ∈ st.accounts := List.mem_of_find?_eq_some hfind
  have haccid : acc.id = accountId := by
    simpa using List.find?_some hfind
  refine ⟨?_, ?_, ?_, ?_, ?_, ?_⟩
  · show ∀ a ∈ st.accounts.map (updateBalance accountId amount),
      a.id < st.nextAccountId
    intro a ha
    obtain ⟨b, hb, rfl⟩ := List.mem_map.1 ha
    rw [updateBalance_id]
    exact hw.acc_id_lt b hb
  · show ∀ t ∈ st.transactions ++
        [⟨st.nextTransactionId, accountId, amount, .deposit, desc, now⟩],
      t.id < st.nextTransactionId + 1
    intro t ht
    rcases List.mem_append.1 ht with hold | hnew
    · have := hw.tx_id_lt t hold
      omega
    · rw [List.mem_singleton] at hnew
      subst hnew
      show st.nextTransactionId < st.nextTransactionId + 1
      omega
  · show (st.accounts.map (updateBalance accountId amount)).Pairwise
      (fun a b => a.id ≠ b.id)
    rw [List.pairwise_map]
    refine hw.acc_ids_distinct.imp ?_
    intro a b hab
    rwa [updateBalance_id, updateBalance_id]
  · show (st.accounts.map (updateBalance accountId amount)).Pairwise
      (fun a b => a.accountNumber ≠ b.accountNumber)
    rw [List.pairwise_map]
    refine hw.acc_nums_distinct.imp ?_
    intro a b hab
    rwa [updateBalance_accountNumber, updateBalance_accountNumber]
  · show ∀ t ∈ st.transactions ++
        [⟨st.nextTransactionId, accountId, amount, .deposit, desc, now⟩],
      ∃ a ∈ st.accounts.map (updateBalance accountId amount),
        a.id = t.accountId
    intro t ht
    rcases List.mem_append.1 ht with hold | hnew
    · obtain ⟨a, ha, haid⟩ := hw.tx_has_account t hold
      exact ⟨updateBalance accountId amount a, List.mem_map_of_mem _ ha,
        by rw [updateBalance_id]; exact haid⟩
    · rw [List.mem_singleton] at hnew
      subst hnew
      exact ⟨updateBalance accountId amount acc,
        List.mem_map_of_mem _ haccmem,
        by rw [updateBalance_id]; exact haccid⟩
  · show ∀ a ∈ st.accounts.map (updateBalance accountId amount),
      a.balanceMinorUnits = txSum (st.transactions ++
        [⟨st.nextTransactionId, accountId, amount, .deposit, desc, now⟩])
        a.id
    intro a ha
    obtain ⟨b, hb, rfl⟩ := List.mem_map.1 ha
    rw [updateBalance_id, txSum_append]
    show (updateBalance accountId amount b).balanceMinorUnits =
      txSum st.transactions b.id +
        (if accountId == b.id then amount else 0)
    have hbal := hw.balance_eq b hb
    by_cases hbid : b.id = accountId
    · have hb1 : (updateBalance accountId amount b).balanceMinorUnits =
          b.balanceMinorUnits + amount := by
        unfold updateBalance
        rw [if_pos (beq_iff_eq.2 hbid)]
      rw [hb1, if_pos (beq_iff_eq.2 hbid.symm), hbal]
    · have hb1 : updateBalance accountId amount b = b := by
        unfold updateBalance
        rw [if_neg]
        simp [hbid]
      rw [hb1, if_neg (by simp [beq_iff_eq]; exact fun h => hbid h.symm)]
      simpa using hbal

/-- A successful `createAccount` preserves the invariant: the issued number
collides with no existing number and the new account starts at balance zero
with no transactions. -/
theorem wf_createAccount (st : LedgerState) (ownerId : Nat)
    (accType : AccountType) (cands : Nat → String) (st' : LedgerState)
    (acc : Account) (hw : WellFormed st)
    (h : createAccount st ownerId accType cands = .ok (st', acc)) :
    WellFormed st' := by
  unfold createAccount at h
  cases hiss : issueNumber
      (fun n => st.accounts.any fun a => a.accountNumber == n) cands with
  | error e => rw [hiss] at h; cases h
  | ok p =>
    obtain ⟨num, k⟩ := p
    rw [hiss] at h
    simp only [Except.ok.injEq, Prod.mk.injEq] at h
    obtain ⟨h1, h2⟩ := h
    subst h1
    have hused := (issueGo_ok_bound
      (fun n => st.accounts.any fun a => a.accountNumber == n) cands
      maxIssueAttempts 0 num k hiss).2
    have hfresh : ∀ a ∈ st.accounts, a.accountNumber ≠ num := by
      intro a ha
      have := List.any_eq_false.1 hused a ha
      simpa using this
    exact wf_extend st hw ownerId accType num hfresh

/-- A successful `fundAccount` preserves the invariant. -/
theorem wf_fundAccount (st : LedgerState) (accountId : Nat) (amount : Int)
    (src : FundingSource) (desc : String) (now : Nat) (st' : LedgerState)
    (tx : Transaction) (hw : WellFormed st)
    (h : fundAccount st accountId amount src desc now = .ok (st', tx)) :
    WellFormed st' := by
  unfold fundAccount at h
  by_cases hneg : amount ≤ 0
  · rw [if_pos hneg] at h; cases h
  · rw [if_neg hneg] at h
    cases hres : resolveSource src with
    | error e => rw [hres] at h; simp at h
    | ok u =>
      cases u
      rw [hres] at h
      dsimp only at h
      cases hfind : findAccount st accountId with
      | none => rw [hfind] at h; simp at h
      | some acc =>
        rw [hfind] at h
        dsimp only at h
        by_cases hact : acc.status = .active
        · rw [if_pos hact] at h
          simp only [Except.ok.injEq, Prod.mk.injEq] at h
          obtain ⟨h1, h2⟩ := h
          subst h1
          exact wf_fund_extend st hw accountId amount desc now acc hfind
        · rw [if_neg hact] at h; simp at h
/-- Applying any operation preserves the invariant; failed operations have
no effect. -/
theorem wf_applyOp (st : LedgerState) (op : Op) (hw : WellFormed st) :
    WellFormed (applyOp st op) := by
  cases op with
  | create o t c =>
    simp only [applyOp]
    cases h : createAccount st o t c with
    | error e => exact hw
    | ok p =>
      obtain ⟨st', acc⟩ := p
      exact wf_createAccount st o t c st' acc hw h
  | fund a v s d n =>
    simp only [applyOp]
    cases h : fundAccount st a v s d n with
    | error e => exact hw
    | ok p =>
      obtain ⟨st', tx⟩ := p
      exact wf_fundAccount st a v s d n st' tx hw h
  | query a => exact hw

/-- The invariant holds after any sequence of operations. -/
theorem wf_runOps_aux : ∀ (ops : List Op) (st : LedgerState),
    WellFormed st → WellFormed (ops.foldl applyOp st)
  | [], _, h => h
  | op :: ops, st, h =>
    wf_runOps_aux ops (applyOp st op) (wf_applyOp st op h)

/-- C2: in every state reachable by any sequence of ledger operations from
the initial state, each account's balance equals the exact sum of the
amounts of its recorded transactions; and an error during `fundAccount`
leaves the state (balance and transaction history together) unchanged. -/
theorem balance_eq_txSum_invariant :
    (∀ ops : List Op, ∀ a ∈ (runOps ops).accounts,
      a.balanceMinorUnits = txSum (runOps ops).transactions a.id) ∧
    (∀ (st : LedgerState) (accountId : Nat) (amount : Int)
        (src : FundingSource) (desc : String) (now : Nat) (e : LedgerError),
      fundAccount st accountId amount src desc now = .error e →
      applyOp st (.fund accountId amount src desc now) = st) := by
  constructor
  · intro ops a ha
    exact (wf_runOps_aux ops initialState wf_initial).balance_eq a ha
  · intro st accountId amount src desc now e h
    simp only [applyOp]
    rw [h]

/-- C3: in every state reachable by any sequence of ledger operations, the
assigned account numbers are pairwise distinct. -/
theorem account_numbers_unique (ops : List Op) :
    (runOps ops).accounts.Pairwise
      (fun a b => a.accountNumber ≠ b.accountNumber) :=
  (wf_runOps_aux ops initialState wf_initial).acc_nums_distinct

/-- A concrete operation sequence used by witnesses: one account creation
followed by one 5-cent card deposit. -/
def wOps : List Op :=
  [.create 7 .checking (fun _ => "11112222"),
   .fund 0 5 ⟨.card, "4242424242424242", none⟩ "d" 3]

/-- Witness for C2: on the concrete run of `wOps` the single account holds
balance 5 and the transaction sum for it is 5; a failing `fundAccount`
(zero amount) leaves the initial state unchanged. -/
theorem balance_eq_txSum_invariant_witness :
    (⟨0, 7, "11112222", .checking, 5, .active⟩ : Account).balanceMinorUnits =
      txSum (runOps wOps).transactions
        (⟨0, 7, "11112222", .checking, 5, .active⟩ : Account).id ∧
    applyOp initialState
        (.fund 0 0 ⟨.card, "4242424242424242", none⟩ "d" 0) =
      initialState :=
  ⟨balance_eq_txSum_invariant.1 wOps
      ⟨0, 7, "11112222", .checking, 5, .active⟩ (by decide),
   balance_eq_txSum_invariant.2 initialState 0 0
      ⟨.card, "4242424242424242", none⟩ "d" 0 .invalidAmount rfl⟩

/-! ## Transaction ordering -/

/-- The newest-first transaction order is total. -/
theorem txBefore_total (a b : Transaction) :
    txBefore a b = true ∨ txBefore b a = true := by
  unfold txBefore
  simp only [Bool.or_eq_true, Bool.and_eq_true, decide_eq_true_eq,
    beq_iff_eq]
  omega

/-- The newest-first transaction order is transitive. -/
theorem txBefore_trans (a b c : Transaction) (h1 : txBefore a b = true)
    (h2 : txBefore b c = true) : txBefore a c = true := by
  unfold txBefore at h1 h2 ⊢
  simp only [Bool.or_eq_true, Bool.and_eq_true, decide_eq_true_eq,
    beq_iff_eq] at h1 h2 ⊢
  omega

/-- C7: `getTransactions` returns exactly the account's transactions
(a permutation of the filter of the ledger's rows), sorted newest-first by
`createdAt` with ties broken so the larger (most recently inserted) id
comes first; in particular a transaction with strictly larger `createdAt`
appears at a strictly earlier position. -/
theorem getTransactions_ordering (st : LedgerState) (accountId : Nat) :
    (getTransactions st accountId).Pairwise
      (fun a b => txBefore a b = true) ∧
    List.Perm (getTransactions st accountId)
      (st.transactions.filter (fun t => t.accountId == accountId)) ∧
    (∀ t1 t2, t1 ∈ getTransactions st accountId →
      t2 ∈ getTransactions st accountId → t1.createdAt < t2.createdAt →
      (getTransactions st accountId).indexOf t2 <
        (getTransactions st accountId).indexOf t1) := by
  have hpair : (getTransactions st accountId).Pairwise
      (fun a b => txBefore a b = true) := by
    unfold getTransactions
    exact List.sorted_mergeSort
      (fun a b c h1 h2 => txBefore_trans a b c h1 h2)
      (fun a b => by
        rcases txBefore_total a b with h | h <;> simp [h])
      (st.transactions.filter (fun t => t.accountId == accountId))
  refine ⟨hpair, List.mergeSort_perm _ _, ?_⟩
  intro t1 t2 h1 h2 hlt
  have hi1 : (getTransactions st accountId).indexOf t1 <
      (getTransactions st accountId).length :=
    List.indexOf_lt_length.2 h1
  have hi2 : (getTransactions st accountId).indexOf t2 <
      (getTransactions st accountId).length :=
    List.indexOf_lt_length.2 h2
  by_contra hcon
  push_neg at hcon
  rcases Nat.lt_or_ge ((getTransactions st accountId).indexOf t1)
      ((getTransactions st accountId).indexOf t2) with hij | hij
  · have hrel := (List.pairwise_iff_getElem.1 hpair) _ _ hi1 hi2 hij
    rw [List.getElem_indexOf hi1, List.getElem_indexOf hi2] at hrel
    unfold txBefore at hrel
    simp only [Bool.or_eq_true, Bool.and_eq_true, decide_eq_true_eq,
      beq_iff_eq] at hrel
    omega
  · have heq : (getTransactions st accountId).indexOf t1 =
        (getTransactions st accountId).indexOf t2 := by omega
    have e1 : (getTransactions st accountId)[
        (getTransactions st accountId).indexOf t1]? = some t1 :=
      List.getElem?_indexOf h1
    have e2 : (getTransactions st accountId)[
        (getTransactions st accountId).indexOf t2]? = some t2 :=
      List.getElem?_indexOf h2
    rw [heq, e2] at e1
    have ht : t2 = t1 := Option.some.inj e1
    rw [ht] at hlt
    omega

/-- A concrete two-transaction ledger state used by the C7 witness. -/
def wStateTx : LedgerState :=
  ⟨[⟨1, 7, "12345678", .checking, 300, .active⟩],
   [⟨0, 1, 100, .deposit, "old", 1⟩, ⟨1, 1, 200, .deposit, "new", 2⟩],
   2, 2⟩

/-- Witness for C7: of two transactions inserted at times 1 < 2, the
time-2 transaction precedes the time-1 transaction in the result. -/
theorem getTransactions_ordering_witness :
    (getTransactions wStateTx 1).indexOf
        (⟨1, 1, 200, .deposit, "new", 2⟩ : Transaction) <
      (getTransactions wStateTx 1).indexOf
        (⟨0, 1, 100, .deposit, "old", 1⟩ : Transaction) := by
  have h := getTransactions_ordering wStateTx 1
  refine h.2.2 ⟨0, 1, 100, .deposit, "old", 1⟩ ⟨1, 1, 200, .deposit, "new", 2⟩
    ?_ ?_ (by decide)
  · exact h.2.1.mem_iff.2 (by decide)
  · exact h.2.1.mem_iff.2 (by decide)

/-! ## Concurrent funding serialization (modelled from the spec §5) -/

/-- Program counter of one funding thread inside the per-account funding
protocol: acquire the account lock, read the balance, write the updated
balance, append the transaction row, release the lock. -/
inductive ThreadPC where
  | idle
  | locked
  | hasRead
  | wrote
  | logged
  | done
  deriving DecidableEq, Repr

/-- One funding thread: its program counter and the balance it has read. -/
structure ThreadState where
  pc : ThreadPC
  reg : Int
  deriving DecidableEq, Repr

/-- Modelled from the spec §5: the shared state of one account funded by
two concurrent `fundAccount` calls — the balance, the amounts of the
appended transaction rows, the per-account lock owner (`some false` for
thread 1, `some true` for thread 2), and the two threads. -/
structure SysState where
  balance : Int
  txs : List Int
  lock : Option Bool
  t1 : ThreadState
  t2 : ThreadState
  deriving DecidableEq, Repr

/-- Modelled from the spec §5: the interleaving small-step semantics of two
concurrent funding calls of amounts `v1` and `v2` on the same account.
Each thread acquires the per-account lock, reads the balance into its
register, writes register plus its amount, appends its transaction row and
releases the lock; the steps of the two threads interleave arbitrarily. -/
inductive Step (v1 v2 : Int) : SysState → SysState → Prop where
  | acquire1 (s : SysState) (h : s.lock = none) (hpc : s.t1.pc = .idle) :
      Step v1 v2 s
        { s with lock := some false, t1 := { s.t1 with pc := .locked } }
  | read1 (s : SysState) (hpc : s.t1.pc = .locked) :
      Step v1 v2 s { s with t1 := { pc := .hasRead, reg := s.balance } }
  | write1 (s : SysState) (hpc : s.t1.pc = .hasRead) :
      Step v1 v2 s
        { s with balance := s.t1.reg + v1,
                 t1 := { s.t1 with pc := .wrote } }
  | append1 (s : SysState) (hpc : s.t1.pc = .wrote) :
      Step v1 v2 s
        { s with txs := s.txs ++ [v1], t1 := { s.t1 with pc := .logged } }
  | release1 (s : SysState) (hpc : s.t1.pc = .logged) :
      Step v1 v2 s
        { s with lock := none, t1 := { s.t1 with pc := .done } }
  | acquire2 (s : SysState) (h : s.lock = none) (hpc : s.t2.pc = .idle) :
      Step v1 v2 s
        { s with lock := some true, t2 := { s.t2 with pc := .locked } }
  | read2 (s : SysState) (hpc : s.t2.pc = .locked) :
      Step v1 v2 s { s with t2 := { pc := .hasRead, reg := s.balance } }
  | write2 (s : SysState) (hpc : s.t2.pc = .hasRead) :
      Step v1 v2 s
        { s with balance := s.t2.reg + v2,
                 t2 := { s.t2 with pc := .wrote } }
  | append2 (s : SysState) (hpc : s.t2.pc = .wrote) :
      Step v1 v2 s
        { s with txs := s.txs ++ [v2], t2 := { s.t2 with pc := .logged } }
  | release2 (s : SysState) (hpc : s.t2.pc = .logged) :
      Step v1 v2 s
        { s with lock := none, t2 := { s.t2 with pc := .done } }

/-- The initial state: zero balance, no transactions, lock free, both
threads idle. -/
def initSys : SysState := ⟨0, [], none, ⟨.idle, 0⟩, ⟨.idle, 0⟩⟩

/-- States reachable under some interleaving of the two funding calls. -/
def Reachable (v1 v2 : Int) : SysState → Prop :=
  Relation.ReflTransGen (Step v1 v2) initSys

/-- Whether a program counter is inside the critical section. -/
def inCS : ThreadPC → Prop
  | .locked | .hasRead | .wrote | .logged => True
  | .idle | .done => False

/-- The contribution of a thread to the shared balance: its amount once it
has written. -/
def wContrib (pc : ThreadPC) (v : Int) : Int :=
  match pc with
  | .wrote | .logged | .done => v
  | _ => 0

/-- The contribution of a thread to the transaction log: its amount once
it has appended its row. -/
def lContrib (pc : ThreadPC) (v : Int) : Int :=
  match pc with
  | .logged | .done => v
  | _ => 0

/-- The inductive invariant of the two-thread funding protocol: the lock
owner is exactly the thread inside the critical section, a thread that has
read holds the current balance in its register, and balance and transaction
log always equal the sum of the contributions of the threads that have
written (respectively appended). -/
structure SysInv (v1 v2 : Int) (s : SysState) : Prop where
  lock1 : inCS s.t1.pc ↔ s.lock = some false
  lock2 : inCS s.t2.pc ↔ s.lock = some true
  reg1 : s.t1.pc = .hasRead → s.t1.reg = s.balance
  reg2 : s.t2.pc = .hasRead → s.t2.reg = s.balance
  bal : s.balance = wContrib s.t1.pc v1 + wContrib s.t2.pc v2
  log : s.txs.sum = lContrib s.t1.pc v1 + lContrib s.t2.pc v2

/-- The invariant holds initially. -/
theorem inv_init (v1 v2 : Int) : SysInv v1 v2 initSys := by
  refine ⟨?_, ?_, ?_, ?_, ?_, ?_⟩ <;>
    simp [initSys, inCS, wContrib, lContrib]

/-- The invariant is preserved by every step of either thread. -/
theorem inv_step (v1 v2 : Int) (s s' : SysState) (hs : SysInv v1 v2 s)
    (h : Step v1 v2 s s') : SysInv v1 v2 s' := by
  cases h with
  | acquire1 hfree hpc =>
    have hn2 : ¬ inCS s.t2.pc := fun hc => by
      have := hs.lock2.1 hc
      rw [hfree] at this
      cases this
    refine ⟨?_, ?_, ?_, ?_, ?_, ?_⟩
    · simp [inCS]
    · simp only
      constructor
      · intro hc
        exact absurd hc hn2
      · intro he
        simp at he
    · intro hr
      cases hr
    · intro hr2
      exact hs.reg2 hr2
    · show s.balance = wContrib .locked v1 + wContrib s.t2.pc v2
      have hb := hs.bal
      rw [hpc] at hb
      simpa [wContrib] using hb
    · show s.txs.sum = lContrib .locked v1 + lContrib s.t2.pc v2
      have hl := hs.log
      rw [hpc] at hl
      simpa [lContrib] using hl
  | read1 hpc =>
    have hlock : s.lock = some false := hs.lock1.1 (by rw [hpc]; trivial)
    have hn2 : ¬ inCS s.t2.pc := fun hc => by
      have := hs.lock2.1 hc
      rw [hlock] at this
      simp at this
    refine ⟨?_, ?_, ?_, ?_, ?_, ?_⟩
    · simpa [inCS] using hlock
    · simp only
      constructor
      · intro hc
        exact absurd hc hn2
      · intro he
        rw [hlock] at he
        simp at he
    · intro _
      rfl
    · intro hr2
      exact hs.reg2 hr2
    · show s.balance = wContrib .hasRead v1 + wContrib s.t2.pc v2
      have hb := hs.bal
      rw [hpc] at hb
      simpa [wContrib] using hb
    · show s.txs.sum = lContrib .hasRead v1 + lContrib s.t2.pc v2
      have hl := hs.log
      rw [hpc] at hl
      simpa [lContrib] using hl
  | write1 hpc =>
    have hlock : s.lock = some false := hs.lock1.1 (by rw [hpc]; trivial)
    have hn2 : ¬ inCS s.t2.pc := fun hc => by
      have := hs.lock2.1 hc
      rw [hlock] at this
      simp at this
    refine ⟨?_, ?_, ?_, ?_, ?_, ?_⟩
    · simpa [inCS] using hlock
    · simp only
      constructor
      · intro hc
        exact absurd hc hn2
      · intro he
        rw [hlock] at he
        simp at he
    · intro hr
      cases hr
    · intro hr2
      exact absurd (by rw [hr2]; trivial) hn2
    · show s.t1.reg + v1 = wContrib .wrote v1 + wContrib s.t2.pc v2
      have hb := hs.bal
      rw [hpc] at hb
      have hr := hs.reg1 hpc
      rw [hr, hb]
      simp [wContrib]
      ring
    · show s.txs.sum = lContrib .wrote v1 + lContrib s.t2.pc v2
      have hl := hs.log
      rw [hpc] at hl
      simpa [lContrib] using hl
  | append1 hpc =>
    have hlock : s.lock = some false := hs.lock1.1 (by rw [hpc]; trivial)
    have hn2 : ¬ inCS s.t2.pc := fun hc => by
      have := hs.lock2.1 hc
      rw [hlock] at this
      simp at this
    refine ⟨?_, ?_, ?_, ?_, ?_, ?_⟩
    · simpa [inCS] using hlock
    · simp only
      constructor
      · intro hc
        exact absurd hc hn2
      · intro he
        rw [hlock] at he
        simp at he
    · intro hr
      cases hr
    · intro hr2
      exact absurd (by rw [hr2]; trivial) hn2
    · show s.balance = wContrib .logged v1 + wContrib s.t2.pc v2
      have hb := hs.bal
      rw [hpc] at hb
      simpa [wContrib] using hb
    · show (s.txs ++ [v1]).sum = lContrib .logged v1 + lContrib s.t2.pc v2
      have hl := hs.log
      rw [hpc] at hl
      simp only [List.sum_append, List.sum_cons, List.sum_nil, add_zero]
      rw [hl]
      simp [lContrib]
      ring
  | release1 hpc =>
    have hlock : s.lock = some false := hs.lock1.1 (by rw [hpc]; trivial)
    have hn2 : ¬ inCS s.t2.pc := fun hc => by
      have := hs.lock2.1 hc
      rw [hlock] at this
      simp at this
    refine ⟨?_, ?_, ?_, ?_, ?_, ?_⟩
    · simp [inCS]
    · simp only
      constructor
      · intro hc
        exact absurd hc hn2
      · intro he
        cases he
    · intro hr
      cases hr
    · intro hr2
      exact absurd (by rw [hr2]; trivial) hn2
    · show s.balance = wContrib .done v1 + wContrib s.t2.pc v2
      have hb := hs.bal
      rw [hpc] at hb
      simpa [wContrib] using hb
    · show s.txs.sum = lContrib .done v1 + lContrib s.t2.pc v2
      have hl := hs.log
      rw [hpc] at hl
      simpa [lContrib] using hl
  | acquire2 hfree hpc =>
    have hn1 : ¬ inCS s.t1.pc := fun hc => by
      have := hs.lock1.1 hc
      rw [hfree] at this
      cases this
    refine ⟨?_, ?_, ?_, ?_, ?_, ?_⟩
    · simp only
      constructor
      · intro hc
        exact absurd hc hn1
      · intro he
        simp at he
    · simp [inCS]
    · intro hr1
      exact hs.reg1 hr1
    · intro hr
      cases hr
    · show s.balance = wContrib s.t1.pc v1 + wContrib .locked v2
      have hb := hs.bal
      rw [hpc] at hb
      simpa [wContrib] using hb
    · show s.txs.sum = lContrib s.t1.pc v1 + lContrib .locked v2
      have hl := hs.log
      rw [hpc] at hl
      simpa [lContrib] using hl
  | read2 hpc =>
    have hlock : s.lock = some true := hs.lock2.1 (by rw [hpc]; trivial)
    have hn1 : ¬ inCS s.t1.pc := fun hc => by
      have := hs.lock1.1 hc
      rw [hlock] at this
      simp at this
    refine ⟨?_, ?_, ?_, ?_, ?_, ?_⟩
    · simp only
      constructor
      · intro hc
        exact absurd hc hn1
      · intro he
        rw [hlock] at he
        simp at he
    · simpa [inCS] using hlock
    · intro hr1
      exact hs.reg1 hr1
    · intro _
      rfl
    · show s.balance = wContrib s.t1.pc v1 + wContrib .hasRead v2
      have hb := hs.bal
      rw [hpc] at hb
      simpa [wContrib] using hb
    · show s.txs.sum = lContrib s.t1.pc v1 + lContrib .hasRead v2
      have hl := hs.log
      rw [hpc] at hl
      simpa [lContrib] using hl
  | write2 hpc =>
    have hlock : s.lock = some true := hs.lock2.1 (by rw [hpc]; trivial)
    have hn1 : ¬ inCS s.t1.pc := fun hc => by
      have := hs.lock1.1 hc
      rw [hlock] at this
      simp at this
    refine ⟨?_, ?_, ?_, ?_, ?_, ?_⟩
    · simp only
      constructor
      · intro hc
        exact absurd hc hn1
      · intro he
        rw [hlock] at he
        simp at he
    · simpa [inCS] using hlock
    · intro hr1
      exact absurd (by rw [hr1]; trivial) hn1
    · intro hr
      cases hr
    · show s.t2.reg + v2 = wContrib s.t1.pc v1 + wContrib .wrote v2
      have hb := hs.bal
      rw [hpc] at hb
      have hr := hs.reg2 hpc
      rw [hr, hb]
      simp [wContrib]
    · show s.txs.sum = lContrib s.t1.pc v1 + lContrib .wrote v2
      have hl := hs.log
      rw [hpc] at hl
      simpa [lContrib] using hl
  | append2 hpc =>
    have hlock : s.lock = some true := hs.lock2.1 (by rw [hpc]; trivial)
    have hn1 : ¬ inCS s.t1.pc := fun hc => by
      have := hs.lock1.1 hc
      rw [hlock] at this
      simp at this
    refine ⟨?_, ?_, ?_, ?_, ?_, ?_⟩
    · simp only
      constructor
      · intro hc
        exact absurd hc hn1
      · intro he
        rw [hlock] at he
        simp at he
    · simpa [inCS] using hlock
    · intro hr1
      exact absurd (by rw [hr1]; trivial) hn1
    · intro hr
      cases hr
    · show s.balance = wContrib s.t1.pc v1 + wContrib .logged v2
      have hb := hs.bal
      rw [hpc] at hb
      simpa [wContrib] using hb
    · show (s.txs ++ [v2]).sum = lContrib s.t1.pc v1 + lContrib .logged v2
      have hl := hs.log
      rw [hpc] at hl
      simp only [List.sum_append, List.sum_cons, List.sum_nil, add_zero]
      rw [hl]
      simp [lContrib]
  | release2 hpc =>
    have hlock : s.lock = some true := hs.lock2.1 (by rw [hpc]; trivial)
    have hn1 : ¬ inCS s.t1.pc := fun hc => by
      have := hs.lock1.1 hc
      rw [hlock] at this
      simp at this
    refine ⟨?_, ?_, ?_, ?_, ?_, ?_⟩
    · simp only
      constructor
      · intro hc
        exact absurd hc hn1
      · intro he
        cases he
    · simp [inCS]
    · intro hr1
      exact absurd (by rw [hr1]; trivial) hn1
    · intro hr
      cases hr
    · show s.balance = wContrib s.t1.pc v1 + wContrib .done v2
      have hb := hs.bal
      rw [hpc] at hb
      simpa [wContrib] using hb
    · show s.txs.sum = lContrib s.t1.pc v1 + lContrib .done v2
      have hl := hs.log
      rw [hpc] at hl
      simpa [lContrib] using hl

/-- The invariant holds in every reachable state. -/
theorem inv_reachable (v1 v2 : Int) (s : SysState)
    (h : Reachable v1 v2 s) : SysInv v1 v2 s := by
  induction h with
  | refl => exact inv_init v1 v2
  | tail hab hbc ih => exact inv_step v1 v2 _ _ ih hbc

/-- C9: under every interleaving of two concurrent `fundAccount` calls of
`v1` and `v2` on the same account from a zero balance, the two updates are
mutually exclusive end-to-end (never both inside the critical section), and
when both calls have finished the balance is exactly `v1 + v2` and the
transaction log sums to `v1 + v2` — neither update is lost. -/
theorem concurrent_funding_serialization (v1 v2 : Int) (s : SysState)
    (h : Reachable v1 v2 s) :
    (¬ (inCS s.t1.pc ∧ inCS s.t2.pc)) ∧
    (s.t1.pc = .done → s.t2.pc = .done →
      s.balance = v1 + v2 ∧ s.txs.sum = v1 + v2) := by
  have hi := inv_reachable v1 v2 s h
  constructor
  · rintro ⟨h1, h2⟩
    have e1 := hi.lock1.1 h1
    have e2 := hi.lock2.1 h2
    rw [e1] at e2
    simp at e2
  · intro h1 h2
    have hb := hi.bal
    have hl := hi.log
    rw [h1, h2] at hb hl
    simp only [wContrib, lContrib] at hb hl
    exact ⟨hb, hl⟩

/-- Witness for C9: thread 1 deposits 3, then thread 2 deposits 4, in the
fully serialized schedule; the final state is reachable, both threads are
done, the balance is 7 and the two transaction rows sum to 7. -/
theorem concurrent_funding_serialization_witness :
    (¬ (inCS (⟨7, [3, 4], none, ⟨.done, 0⟩, ⟨.done, 3⟩⟩ : SysState).t1.pc ∧
        inCS (⟨7, [3, 4], none, ⟨.done, 0⟩, ⟨.done, 3⟩⟩ : SysState).t2.pc)) ∧
    ((⟨7, [3, 4], none, ⟨.done, 0⟩, ⟨.done, 3⟩⟩ : SysState).t1.pc = .done →
     (⟨7, [3, 4], none, ⟨.done, 0⟩, ⟨.done, 3⟩⟩ : SysState).t2.pc = .done →
     (⟨7, [3, 4], none, ⟨.done, 0⟩, ⟨.done, 3⟩⟩ : SysState).balance =
        3 + 4 ∧
     (⟨7, [3, 4], none, ⟨.done, 0⟩, ⟨.done, 3⟩⟩ : SysState).txs.sum =
        3 + 4) := by
  apply concurrent_funding_serialization 3 4
  have r1 : Reachable 3 4 ⟨0, [], some false, ⟨.locked, 0⟩, ⟨.idle, 0⟩⟩ :=
    Relation.ReflTransGen.refl.tail (Step.acquire1 initSys rfl rfl)
  have r2 : Reachable 3 4 ⟨0, [], some false, ⟨.hasRead, 0⟩, ⟨.idle, 0⟩⟩ :=
    r1.tail (Step.read1 _ rfl)
  have r3 : Reachable 3 4 ⟨3, [], some false, ⟨.wrote, 0⟩, ⟨.idle, 0⟩⟩ :=
    r2.tail (Step.write1 _ rfl)
  have r4 : Reachable 3 4 ⟨3, [3], some false, ⟨.logged, 0⟩, ⟨.idle, 0⟩⟩ :=
    r3.tail (Step.append1 _ rfl)
  have r5 : Reachable 3 4 ⟨3, [3], none, ⟨.done, 0⟩, ⟨.idle, 0⟩⟩ :=
    r4.tail (Step.release1 _ rfl)
  have r6 : Reachable 3 4 ⟨3, [3], some true, ⟨.done, 0⟩, ⟨.locked, 0⟩⟩ :=
    r5.tail (Step.acquire2 _ rfl rfl)
  have r7 : Reachable 3 4 ⟨3, [3], some true, ⟨.done, 0⟩, ⟨.hasRead, 3⟩⟩ :=
    r6.tail (Step.read2 _ rfl)
  have r8 : Reachable 3 4 ⟨7, [3], some true, ⟨.done, 0⟩, ⟨.wrote, 3⟩⟩ :=
    r7.tail (Step.write2 _ rfl)
  have r9 : Reachable 3 4 ⟨7, [3, 4], some true, ⟨.done, 0⟩, ⟨.logged, 3⟩⟩ :=
    r8.tail (Step.append2 _ rfl)
  exact r9.tail (Step.release2 _ rfl)

end Glide
